import Mathlib

/-!
# Verification of the StingerSpaces alias-generation and validation-grid core

Shallow embedding of the algorithmic core of the StingerSpaces repository:

* `backend/src/advanced_alias_generator.py` — alias generation and fuzzy
  entity matching (`generate_all_aliases`, `find_best_match`);
* `backend/src/enhanced_reddit_searcher.py` — search-term prioritisation,
  housing-context gate, and mention detection (`generate_search_terms`,
  `_has_housing_context`, `_find_mentioned_apartments`);
* `backend/reddit_archive/supabase_grid_manager.py` — the local-storage
  validation grid (`_initialize_local_storage`, `_add_validation_local`,
  `_get_summary_local`).

Python floats are modelled as exact rationals (`ℚ`); Python `str` is
modelled as Lean `String` restricted to the ASCII fragment on which the
two `lower`/`upper` notions agree.  External third-party functions
(`fuzzywuzzy.fuzz.ratio`, `phonetics.soundex`, `hashlib.md5`) are not part
of this repository; embeddings that call them take the corresponding
function as an explicit parameter, and concrete instances tabulate the
library's behaviour on the inputs used.
-/

namespace StingerSpaces

/-! ## Python string primitives, modelled on `List Char` -/

/-- Python `str.lower()` (ASCII fragment). -/
def pyLower (s : String) : String := ⟨s.data.map Char.toLower⟩

/-- Python `str.upper()` (ASCII fragment). -/
def pyUpper (s : String) : String := ⟨s.data.map Char.toUpper⟩

/-- Python `s[:n]` for a nonnegative index: the first `n` characters. -/
def pyTake (n : ℕ) (s : String) : String := ⟨s.data.take n⟩

/-- Python `s[n:]` for a nonnegative index: drop the first `n` characters. -/
def pyDrop (n : ℕ) (s : String) : String := ⟨s.data.drop n⟩

/-- Python `s[:-n]`: drop the last `n` characters. -/
def pyDropRight (n : ℕ) (s : String) : String := ⟨s.data.take (s.data.length - n)⟩

/-- Contiguous-sublist test on character lists: `needle` occurs inside `hay`. -/
def hasInfix (needle : List Char) : List Char → Bool
  | [] => needle.isEmpty
  | c :: rest => needle.isPrefixOf (c :: rest) || hasInfix needle rest

/-- Python `needle in hay` for strings: contiguous substring containment. -/
def strContains (hay needle : String) : Bool := hasInfix needle.data hay.data

/-- Python `s.startswith(p)`. -/
def pyStartsWith (s p : String) : Bool := p.data.isPrefixOf s.data

/-- One step of Python `str.replace`: leftmost-first, non-overlapping.
The fuel argument bounds recursion depth; `fuel = length of the input`
always suffices because every step consumes at least one character.
(The Python `old = ""` edge case, which interleaves `new` everywhere, is
never exercised by this repository and is mapped to the identity.) -/
def replChars (old new : List Char) : ℕ → List Char → List Char
  | _, [] => []
  | 0, l => l
  | fuel + 1, c :: rest =>
    if old.length != 0 && old.isPrefixOf (c :: rest) then
      new ++ replChars old new fuel (List.drop (old.length - 1) rest)
    else
      c :: replChars old new fuel rest

/-- Python `s.replace(old, new)`. -/
def pyReplace (s old new : String) : String :=
  ⟨replChars old.data new.data s.data.length s.data⟩

/-- Worker for `pyWords`: split on whitespace runs, discarding empties.
`cur` holds the current in-progress word, reversed. -/
def wsSplitAux (cur : List Char) : List Char → List (List Char)
  | [] => if cur.isEmpty then [] else [cur.reverse]
  | c :: cs =>
    if c.isWhitespace then
      if cur.isEmpty then wsSplitAux [] cs else cur.reverse :: wsSplitAux [] cs
    else
      wsSplitAux (c :: cur) cs

/-- Python `s.split()` with no argument: split on runs of whitespace,
with no empty fields. -/
def pyWords (s : String) : List String := (wsSplitAux [] s.data).map (⟨·⟩)

/-- Python `s.isdigit()` (ASCII fragment): nonempty and all digits. -/
def pyIsDigit (s : String) : Bool := !s.data.isEmpty && s.data.all Char.isDigit

/-- Python `any(c.isdigit() for c in s)`. -/
def pyHasDigit (s : String) : Bool := s.data.any Char.isDigit

/-- Python `re.search(r'\d+', s)`: the first maximal run of digits, if any. -/
def firstDigitRun : List Char → Option String
  | [] => none
  | c :: cs =>
    if c.isDigit then some ⟨c :: cs.takeWhile Char.isDigit⟩ else firstDigitRun cs

/-- Python `' '.join(words)`. -/
def pyJoinSpace (ws : List String) : String := String.intercalate " " ws

/-- Python `''.join(parts)`. -/
def pyConcat (ws : List String) : String := String.join ws

/-! ## Python `set` and `dict`, modelled as insertion-ordered lists

Python's `set` iterates in a hash-determined, effectively arbitrary order;
the embedding fixes first-insertion order.  No theorem below depends on
the iteration order of a set beyond membership and multiplicity. -/

/-- `set.add`: append unless already present. -/
def setAdd (l : List String) (s : String) : List String :=
  if s ∈ l then l else l ++ [s]

/-- `set.update` / union: add every element of `xs` in order. -/
def setUnionL (l : List String) (xs : List String) : List String :=
  xs.foldl setAdd l

/-- `dict` lookup: first binding of the key, if any. -/
def alookup {β : Type} : List (String × β) → String → Option β
  | [], _ => none
  | p :: t, k => if p.1 == k then some p.2 else alookup t k

/-- Python `k in d` for a dictionary: key membership. -/
def akeyMem {β : Type} : List (String × β) → String → Bool
  | [], _ => false
  | p :: t, k => p.1 == k || akeyMem t k

/-- Python `dict.get(k, d)`. -/
def alookupD {β : Type} (m : List (String × β)) (k : String) (d : β) : β :=
  (alookup m k).getD d

/-- `dict[k] = v`: overwrite in place if the key exists, else append. -/
def aupsert {β : Type} (m : List (String × β)) (k : String) (v : β) :
    List (String × β) :=
  if akeyMem m k then
    m.map (fun q => if q.1 == k then (k, v) else q)
  else
    m ++ [(k, v)]

/-- Update the value at a key in place, leaving other bindings untouched. -/
def aupdate {β : Type} (m : List (String × β)) (k : String) (f : β → β) :
    List (String × β) :=
  m.map (fun p => if p.1 == k then (p.1, f p.2) else p)

/-- Assign value `v` to every key of `ks` (one generator pass writing its
fixed confidence weight over its alias set). -/
def confSetAll (m : List (String × ℚ)) (ks : List String) (v : ℚ) :
    List (String × ℚ) :=
  ks.foldl (fun acc k => aupsert acc k v) m

/-! ## `advanced_alias_generator.py` — data tables

All tables are transcribed verbatim from the `AdvancedAliasGenerator`
constructor and from the local dictionary in
`_generate_short_form_aliases`. -/

/-- `self.common_words`. -/
def commonWords : List String :=
  ["apartment", "apartments", "apt", "apts",
   "student", "housing", "residences", "residence",
   "complex", "community", "towers", "tower",
   "lofts", "loft", "place", "plaza", "point", "pointe",
   "square", "station", "flats", "the", "at", "on", "of",
   "hall", "halls", "house", "houses", "village", "commons",
   "center", "centre", "park", "gardens", "court", "courts"]

/-- `self.number_words`. -/
def numberWords : List (String × String) :=
  [("one", "1"), ("two", "2"), ("three", "3"), ("four", "4"), ("five", "5"),
   ("six", "6"), ("seven", "7"), ("eight", "8"), ("nine", "9"), ("ten", "10"),
   ("eleven", "11"), ("twelve", "12"), ("thirteen", "13"), ("fourteen", "14"),
   ("fifteen", "15"), ("sixteen", "16"), ("seventeen", "17"), ("eighteen", "18"),
   ("nineteen", "19"), ("twenty", "20"), ("thirty", "30"), ("forty", "40"),
   ("fifty", "50"), ("sixty", "60"), ("seventy", "70"), ("eighty", "80"),
   ("ninety", "90"), ("hundred", "100")]

/-- `self.ordinal_words`. -/
def ordinalWords : List (String × String) :=
  [("first", "1st"), ("second", "2nd"), ("third", "3rd"), ("fourth", "4th"),
   ("fifth", "5th"), ("sixth", "6th"), ("seventh", "7th"), ("eighth", "8th"),
   ("ninth", "9th"), ("tenth", "10th"), ("eleventh", "11th"), ("twelfth", "12th"),
   ("thirteenth", "13th"), ("fourteenth", "14th"), ("fifteenth", "15th"),
   ("sixteenth", "16th"), ("seventeenth", "17th"), ("eighteenth", "18th"),
   ("nineteenth", "19th"), ("twentieth", "20th")]

/-- `self.abbreviation_patterns` (the instance-level dictionary). -/
def abbreviationPatterns : List (String × List String) :=
  [("apartment", ["apt"]), ("apartments", ["apts"]),
   ("building", ["bldg"]), ("buildings", ["bldgs"]),
   ("tower", ["twr"]), ("towers", ["twrs"]),
   ("place", ["pl"]), ("plaza", ["plz"]),
   ("street", ["st"]), ("avenue", ["ave"]), ("boulevard", ["blvd"]),
   ("court", ["ct"]), ("circle", ["cir"]), ("drive", ["dr"]),
   ("residence", ["res"]), ("residences", ["res"]),
   ("student", ["stud"]), ("university", ["univ", "u"]),
   ("college", ["coll"]), ("campus", ["camp"])]

/-- The local `abbreviation_patterns` dictionary inside
`_generate_short_form_aliases` (pattern 3). -/
def shortFormPatterns : List (String × List String) :=
  [("square", ["sq", "sqr"]),
   ("apartment", ["apt"]),
   ("building", ["bldg"]),
   ("tower", ["twr"]),
   ("place", ["pl"]),
   ("street", ["st"]),
   ("avenue", ["ave"]),
   ("court", ["ct"]),
   ("circle", ["cir"]),
   ("drive", ["dr"]),
   ("station", ["sta", "stn"])]

/-- `phonetic_subs` in `_generate_phonetic_aliases`, in Python dict
(insertion) order. -/
def phoneticSubs : List (String × String) :=
  [("ph", "f"), ("f", "ph"), ("c", "k"), ("k", "c"),
   ("z", "s"), ("s", "z"), ("i", "y"), ("y", "i")]

/-! ## `advanced_alias_generator.py` — the six generator passes -/

/-- `ApartmentAlias` dataclass.  `aliases` is the Python set in insertion
order; `confidence_scores` the alias-to-weight dictionary. -/
structure ApartmentAlias where
  original_name : String
  aliases : List String
  confidence_scores : List (String × ℚ)
deriving DecidableEq

/-- `_generate_basic_aliases`. -/
def generateBasicAliases (name : String) : List String :=
  let cleanName := pyLower name
  let words := pyWords cleanName
  let filteredWords := words.filter (fun w => !commonWords.contains w)
  let s0 : List String := []
  let s1 := if !filteredWords.isEmpty then setAdd s0 (pyJoinSpace filteredWords) else s0
  let s2 := if pyStartsWith cleanName "the " then setAdd s1 (pyDrop 4 cleanName) else s1
  let cleanNoPunct : String :=
    ⟨cleanName.data.filter (fun c => c.isAlphanum || c == '_' || c.isWhitespace)⟩
  let s3 := setAdd s2 cleanNoPunct
  setAdd s3 (pyReplace cleanName " " "")

/-- `_generate_abbreviation_aliases`. -/
def generateAbbreviationAliases (name : String) : List String :=
  let words := pyWords (pyLower name)
  let s0 : List String := []
  let s1 :=
    if words.length > 1 then
      let abr := pyConcat ((words.filter (fun w => !commonWords.contains w)).map (pyTake 1))
      if abr.data.length ≥ 2 then setAdd s0 abr else s0
    else s0
  let letters := (words.filter (fun w => !commonWords.contains w && !pyIsDigit w)).map (pyTake 1)
  let numbers := words.filter (fun w => pyIsDigit w || pyHasDigit w)
  if !letters.isEmpty && !numbers.isEmpty then
    numbers.foldl (fun acc num => setAdd acc (pyConcat letters ++ num)) s1
  else s1

/-- The `numbers` list built at the top of `_generate_short_form_aliases`:
digit words and embedded digit runs, then digit runs of mapped ordinal
words. -/
def shortFormNumbers (words : List String) : List String :=
  let passA := words.foldl (fun acc w =>
    if pyIsDigit w then acc ++ [w]
    else if pyHasDigit w then
      match firstDigitRun w.data with
      | some r => acc ++ [r]
      | none => acc
    else acc) []
  words.foldl (fun acc w =>
    match alookup ordinalWords w with
    | some ordinalNum =>
      match firstDigitRun ordinalNum.data with
      | some r => acc ++ [r]
      | none => acc
    | none => acc) passA

/-- `_generate_short_form_aliases`. -/
def generateShortFormAliases (name : String) : List String :=
  let words := pyWords (pyLower name)
  let numbers := shortFormNumbers words
  let mainWords := words.filter (fun w => !commonWords.contains w && !pyHasDigit w)
  let s0 : List String := []
  -- Pattern 1: first 2-3 letters of main words + numbers
  let s1 :=
    if !mainWords.isEmpty && !numbers.isEmpty then
      mainWords.foldl (fun acc mw =>
        numbers.foldl (fun acc2 num =>
          let acc3 := if mw.data.length ≥ 2 then setAdd acc2 (pyUpper (pyTake 2 mw) ++ num) else acc2
          if mw.data.length ≥ 3 then setAdd acc3 (pyUpper (pyTake 3 mw) ++ num) else acc3) acc) s0
    else s0
  -- Pattern 2: consonant skeleton + numbers
  let s2 := mainWords.foldl (fun acc w =>
    let consonants : String := ⟨w.data.filter (fun c => !(['a', 'e', 'i', 'o', 'u'].contains c))⟩
    if consonants.data.length ≥ 2 then
      numbers.foldl (fun acc2 num => setAdd acc2 (pyUpper consonants ++ num)) acc
    else acc) s1
  -- Pattern 3: abbreviation-word substitution (local dictionary)
  let s3 := words.foldl (fun acc w =>
    match alookup shortFormPatterns w with
    | some abbrevs =>
      abbrevs.foldl (fun acc2 abr =>
        let newName := pyReplace (pyLower name) w abr
        let acc3 := setAdd acc2 (pyReplace newName " " "")
        if !numbers.isEmpty then
          numbers.foldl (fun acc4 num => setAdd acc4 (pyUpper abr ++ num)) acc3
        else acc3) acc
    | none => acc) s2
  -- Pattern 4: per-word 2-3 letter prefixes again, then multi-word initialism
  let s4 :=
    if mainWords.length ≥ 1 && !numbers.isEmpty then
      let s4a := mainWords.foldl (fun acc w =>
        numbers.foldl (fun acc2 num =>
          let acc3 := if w.data.length ≥ 2 then setAdd acc2 (pyUpper (pyTake 2 w) ++ num) else acc2
          if w.data.length ≥ 3 then setAdd acc3 (pyUpper (pyTake 3 w) ++ num) else acc3) acc) s3
      if mainWords.length ≥ 2 then
        let firstLetters := pyConcat (mainWords.map (fun w => pyUpper (pyTake 1 w)))
        numbers.foldl (fun acc num => setAdd acc (firstLetters ++ num)) s4a
      else s4a
    else s3
  -- Pattern 5: instance-level abbreviation substitutions + numbers
  mainWords.foldl (fun acc w =>
    match alookup abbreviationPatterns w with
    | some abbrevs =>
      abbrevs.foldl (fun acc2 abr =>
        numbers.foldl (fun acc3 num =>
          setAdd (setAdd acc3 (pyUpper abr ++ num)) (pyLower abr ++ num)) acc2) acc
    | none => acc) s4

/-- `_generate_phonetic_aliases`.  `phonetics.soundex` is a third-party
library call; it is taken as the parameter `sdx`, with `none` standing for
the exception branch that the code swallows. -/
def generatePhoneticAliases (sdx : String → Option String) (name : String) :
    List String :=
  let s0 : List String :=
    match sdx name with
    | some code => [code]
    | none => []
  phoneticSubs.foldl (fun acc p =>
    if strContains (pyLower name) p.1 then
      setAdd acc (pyReplace (pyLower name) p.1 p.2)
    else acc) s0

/-- `_generate_number_aliases`. -/
def generateNumberAliases (name : String) : List String :=
  let nameLower := pyLower name
  let s1 := numberWords.foldl (fun acc p =>
    if strContains nameLower p.1 then setAdd acc (pyReplace nameLower p.1 p.2) else acc) []
  ordinalWords.foldl (fun acc p =>
    if strContains nameLower p.1 then
      let acc2 := setAdd acc (pyReplace nameLower p.1 p.2)
      setAdd acc2 (pyReplace nameLower p.1 (pyDropRight 2 p.2))
    else acc) s1

/-- `_generate_location_aliases` for a given `location_config`. -/
def generateLocationAliases (config : List (String × List String)) (name : String) :
    List String :=
  if config.isEmpty then []
  else
    let nameLower := pyLower name
    config.foldl (fun acc p =>
      let locationLower := pyLower p.1
      if strContains nameLower locationLower then
        p.2.foldl (fun acc2 ab =>
          let al := pyReplace nameLower locationLower (pyLower ab)
          setAdd (setAdd acc2 al) (pyReplace al " " "")) acc
      else acc) []

/-- `generate_all_aliases`: the original name at confidence 1.0, then the
six passes in source order, each pass union-ing its aliases into the set
and overwriting each of its aliases' confidence with the pass weight. -/
def generateAllAliases (sdx : String → Option String)
    (config : List (String × List String)) (apartmentName : String) :
    ApartmentAlias :=
  let low := pyLower apartmentName
  let al0 := [low]
  let cs0 : List (String × ℚ) := [(low, 1)]
  let basic := generateBasicAliases apartmentName
  let al1 := setUnionL al0 basic
  let cs1 := confSetAll cs0 basic (9/10)
  let abr := generateAbbreviationAliases apartmentName
  let al2 := setUnionL al1 abr
  let cs2 := confSetAll cs1 abr (8/10)
  let short := generateShortFormAliases apartmentName
  let al3 := setUnionL al2 short
  let cs3 := confSetAll cs2 short (7/10)
  let phon := generatePhoneticAliases sdx apartmentName
  let al4 := setUnionL al3 phon
  let cs4 := confSetAll cs3 phon (6/10)
  let nums := generateNumberAliases apartmentName
  let al5 := setUnionL al4 nums
  let cs5 := confSetAll cs4 nums (85/100)
  let locs := generateLocationAliases config apartmentName
  let al6 := setUnionL al5 locs
  let cs6 := confSetAll cs5 locs (75/100)
  ⟨apartmentName, al6, cs6⟩

/-! ## `enhanced_reddit_searcher.py` — search terms, context gate,
mention detection

`self.apartment_aliases` (a name-keyed dictionary built in lockstep with
the `self.apartments` list by `load_apartment_data`) is modelled as an
association list of `(name, ApartmentAlias)` pairs. -/

/-- `self.housing_context_keywords` (a Python set literal; order is the
source order, which only matters for counting). -/
def housingContextKeywords : List String :=
  ["housing", "apartment", "living", "rent", "lease", "roommate",
   "move", "dorm", "residence", "amenities", "price", "cost",
   "utilities", "parking", "location", "campus", "walk", "shuttle",
   "noise", "quiet", "party", "management", "maintenance", "gym",
   "pool", "laundry", "kitchen", "bedroom", "bathroom", "balcony"]

/-- The number of distinct context keywords occurring as substrings of the
lowercased text (the generator-sum in `_has_housing_context`). -/
def contextKeywordCount (text : String) : ℕ :=
  housingContextKeywords.countP (fun k => strContains (pyLower text) k)

/-- `_has_housing_context`: at least 2 keyword hits. -/
def hasHousingContext (text : String) : Bool :=
  decide (2 ≤ contextKeywordCount text)

/-- `aliases.confidence_scores.get(alias, 0.5)`. -/
def confOf (A : ApartmentAlias) (a : String) : ℚ :=
  alookupD A.confidence_scores a (1/2)

/-- Worker for `dedupPairs`, keeping the first occurrence of each pair. -/
def dedupAux (acc : List (String × ℚ)) : List (String × ℚ) → List (String × ℚ)
  | [] => acc
  | x :: t => if x ∈ acc then dedupAux acc t else dedupAux (acc ++ [x]) t

/-- `generate_search_terms`' final `list(set(search_terms))`: it
deduplicates `(term, confidence)` PAIRS (not terms); the embedding keeps
the first occurrence of each pair (Python's set order is arbitrary; no
theorem depends on the order, only on membership and multiplicity). -/
def dedupPairs (l : List (String × ℚ)) : List (String × ℚ) :=
  dedupAux [] l

/-- Stable insertion of `x` into a list sorted descending by `key`:
`x` goes before the first element with a strictly smaller key. -/
def insByKey {α : Type} {β : Type} [LinearOrder β] (key : α → β) (x : α) :
    List α → List α
  | [] => [x]
  | y :: ys => if key y < key x then x :: y :: ys else y :: insByKey key x ys

/-- Sort descending by `key` (stable; models Python `list.sort` with
`reverse=True`). -/
def sortByKeyDesc {α : Type} {β : Type} [LinearOrder β] (key : α → β)
    (l : List α) : List α :=
  l.foldr (insByKey key) []

/-- `generate_search_terms(apartment_name)` over the alias dictionary
`aliasMap`. -/
def generateSearchTerms (aliasMap : List (String × ApartmentAlias))
    (apartmentName : String) : List (String × ℚ) :=
  match alookup aliasMap apartmentName with
  | none => [(pyLower apartmentName, 1)]
  | some A =>
    let base : List (String × ℚ) := [(pyLower apartmentName, 1)]
    let hi := (A.aliases.filter (fun a => 8/10 ≤ confOf A a)).map
      (fun a => (a, confOf A a))
    let mid := (A.aliases.filter (fun a => 6/10 ≤ confOf A a ∧ confOf A a < 8/10)).map
      (fun a => (a, confOf A a))
    ((sortByKeyDesc (fun p => p.2) (dedupPairs (base ++ hi ++ mid))).take 10)

/-- The per-alias score in `_find_mentioned_apartments`.  `fz` is the
third-party `fuzzywuzzy.fuzz.ratio` (an integer 0–100), taken as a
parameter.  The `for … break / else` over the text's tokens is the first
token whose ratio clears 85. -/
def aliasScore (fz : String → String → ℕ) (textLower : String)
    (a : String) (conf : ℚ) : ℚ :=
  if strContains textLower a then conf
  else if a.data.length > 4 then
    match (pyWords textLower).find? (fun w => 85 ≤ fz a w) with
    | some w => conf * ((fz a w : ℚ) / 100)
    | none => 0
  else 0

/-- The running maximum over an entity's aliases (`best_score`,
initialised to 0.0). -/
def bestMentionScore (fz : String → String → ℕ) (textLower : String)
    (A : ApartmentAlias) : ℚ :=
  A.aliases.foldl (fun b a => max b (aliasScore fz textLower a (confOf A a))) 0

/-- `_find_mentioned_apartments`: every entity of the universe whose best
alias score reaches 0.6, with that score. -/
def findMentionedApartments (fz : String → String → ℕ)
    (uni : List (String × ApartmentAlias)) (text : String) :
    List (String × ℚ) :=
  match uni with
  | [] => []
  | (n, A) :: rest =>
    let b := bestMentionScore fz (pyLower text) A
    if 6/10 ≤ b then (n, b) :: findMentionedApartments fz rest text
    else findMentionedApartments fz rest text

/-! ## `advanced_alias_generator.py` — `find_best_match` -/

/-- The loop body state of `find_best_match` for one entity:
`(best_score, best_alias, confidence)`, updated only on a strictly larger
score. -/
def bestMatchTriple (fz : String → String → ℕ) (queryLower : String)
    (A : ApartmentAlias) : ℕ × Option String × ℚ :=
  A.aliases.foldl (fun acc a =>
    let score := if queryLower == a then 100 else fz queryLower a
    if acc.1 < score then (score, some a, confOf A a) else acc)
    (0, none, 0)

/-- `find_best_match(search_term, apartment_aliases, threshold)`:
entities whose best score clears the threshold, sorted descending by
score. -/
def findBestMatch (fz : String → String → ℕ) (searchTerm : String)
    (apartmentAliases : List ApartmentAlias) (threshold : ℕ) :
    List (String × ℕ × Option String × ℚ) :=
  sortByKeyDesc (fun m => m.2.1)
    (apartmentAliases.filterMap (fun A =>
      if threshold ≤ (bestMatchTriple fz (pyLower searchTerm) A).1 then
        some (A.original_name, bestMatchTriple fz (pyLower searchTerm) A)
      else none))

/-! ## `supabase_grid_manager.py` — the local-storage validation grid -/

/-- One cell of `validation_grid[source][mentioned]`. -/
structure GridCell where
  comment_count : ℕ
  verified_comments : ℕ
  confidence_sum : ℚ
  average_confidence : ℚ
  last_updated : Option String
deriving DecidableEq

/-- The zero cell written by `_initialize_local_storage`. -/
def zeroCell : GridCell := ⟨0, 0, 0, 0, none⟩

/-- The `CommentValidation` dataclass.  Timestamps are opaque strings. -/
structure CommentValidation where
  comment_id : String
  source_apartment : String
  mentioned_apartment : String
  comment_text : String
  confidence_score : ℚ
  validation_status : String
  created_at : String
  reddit_post_id : String
  reddit_comment_id : String
deriving DecidableEq

/-- The per-comment JSON object stored under `comments[comment_id]`. -/
structure CommentRecord where
  source_apartment : String
  mentioned_apartment : String
  comment_text : String
  confidence_score : ℚ
  validation_status : String
  created_at : String
  reddit_post_id : String
  reddit_comment_id : String
deriving DecidableEq

/-- The stored JSON document (`apartments`, `validation_grid`,
`comments`, and the metadata `last_updated` field). -/
structure GridData where
  apartments : List String
  validation_grid : List (String × List (String × GridCell))
  comments : List (String × CommentRecord)
  metadata_last_updated : String
deriving DecidableEq

/-- `_initialize_local_storage`: one zero cell for every ordered pair of
loaded apartments.  `now` is the `datetime.now()` timestamp. -/
def initLocalStorage (apartments : List String) (now : String) : GridData :=
  { apartments := apartments
    validation_grid :=
      apartments.map (fun s => (s, apartments.map (fun t => (t, zeroCell))))
    comments := []
    metadata_last_updated := now }

/-- The comment id actually used: the given one, or, when empty, the
`hashFn` digest of `source + mentioned + first 100 chars of text`
(`hashlib.md5(...).hexdigest()`, an external deterministic hash taken as
a parameter). -/
def effectiveCommentId (hashFn : String → String) (v : CommentValidation) :
    String :=
  if v.comment_id == "" then
    hashFn (v.source_apartment ++ v.mentioned_apartment ++ pyTake 100 v.comment_text)
  else v.comment_id

/-- The stored record for a validation. -/
def recordOf (v : CommentValidation) : CommentRecord :=
  ⟨v.source_apartment, v.mentioned_apartment, v.comment_text,
   v.confidence_score, v.validation_status, v.created_at,
   v.reddit_post_id, v.reddit_comment_id⟩

/-- The guard `source in grid_data['validation_grid'] and mentioned in
grid_data['validation_grid'][source]`. -/
def pairPresent (g : GridData) (source mentioned : String) : Bool :=
  match alookup g.validation_grid source with
  | none => false
  | some row => (alookup row mentioned).isSome

/-- The cell update in `_add_validation_local`: increment the count, add
the confidence, recompute the average from the updated sums, bump the
verified count on a `'verified'` record, stamp `last_updated`. -/
def updateCell (v : CommentValidation) (now : String) (c : GridCell) : GridCell :=
  { comment_count := c.comment_count + 1
    confidence_sum := c.confidence_sum + v.confidence_score
    average_confidence :=
      (c.confidence_sum + v.confidence_score) / ((c.comment_count + 1 : ℕ) : ℚ)
    verified_comments :=
      if v.validation_status == "verified" then c.verified_comments + 1
      else c.verified_comments
    last_updated := some now }

/-- `_add_validation_local` (the success path; a persistence I/O failure
would return `False` with the store unchanged, which no claim here
exercises).  Returns the success flag and the stored document. -/
def addValidationLocal (hashFn : String → String) (now : String)
    (v : CommentValidation) (g : GridData) : Bool × GridData :=
  let cid := effectiveCommentId hashFn v
  let comments' := aupsert g.comments cid (recordOf v)
  let grid' :=
    if pairPresent g v.source_apartment v.mentioned_apartment then
      aupdate g.validation_grid v.source_apartment
        (fun row => aupdate row v.mentioned_apartment (updateCell v now))
    else g.validation_grid
  (true,
   { g with
     comments := comments'
     validation_grid := grid'
     metadata_last_updated := now })

/-- The summary dictionary returned by `_get_summary_local` (its zero
default omits `confidence_sum` and `last_updated`). -/
structure ValidationSummary where
  comment_count : ℕ
  verified_comments : ℕ
  average_confidence : ℚ
deriving DecidableEq

/-- The cell stored for a pair, if any (the nested
`source in grid … and mentioned in grid[source]` lookup). -/
def cellAt (g : GridData) (source mentioned : String) : Option GridCell :=
  match alookup g.validation_grid source with
  | none => none
  | some row => alookup row mentioned

/-- `_get_summary_local`: the stored cell's summary when the nested
lookup (factored as `cellAt`) succeeds, the zero default otherwise. -/
def getSummaryLocal (g : GridData) (source mentioned : String) :
    ValidationSummary :=
  match cellAt g source mentioned with
  | some c => ⟨c.comment_count, c.verified_comments, c.average_confidence⟩
  | none => ⟨0, 0, 0⟩

/-- Run a sequence of `add_comment_validation` calls (local-storage path)
from a starting document; each step carries its own `datetime.now()`
stamp. -/
def runAdds (hashFn : String → String) (steps : List (String × CommentValidation))
    (g : GridData) : GridData :=
  steps.foldl (fun acc p => (addValidationLocal hashFn p.1 p.2 acc).2) g

/-! ## Concrete instances of the external dependencies

The third-party functions are tabulated on the concrete inputs used by
the theorems below, mirroring the libraries' actual outputs
(`phonetics.soundex("a") = "A000"`;
`fuzzywuzzy.fuzz.ratio("catalyst", "catalist") = 88`,
`fuzz.ratio("catalyst", "catalys") = 93`). -/

/-- `phonetics.soundex`, tabulated. -/
def sdxDemo : String → Option String :=
  fun s => if s == "a" then some "A000" else none

/-- `fuzzywuzzy.fuzz.ratio`, tabulated. -/
def fzDemo : String → String → ℕ :=
  fun a b =>
    if a == b then 100
    else if a == "catalyst" && b == "catalist" then 88
    else if a == "catalyst" && b == "catalys" then 93
    else 0

/-- A degenerate fuzzy scorer: no fuzzy hits at all. -/
def fzZero : String → String → ℕ := fun _ _ => 0

/-- `hashlib.md5(...).hexdigest()` stand-in: any deterministic function
serves the claims, which depend only on determinism of the digest. -/
def hashDemo : String → String := fun s => s

/-- The alias set the generator computes for the one-letter name `"a"`. -/
def demoAliasA : ApartmentAlias := generateAllAliases sdxDemo [] "a"

/-- A one-entity alias dictionary. -/
def demoMap : List (String × ApartmentAlias) := [("a", demoAliasA)]

/-- A validation record for the pair `("A", "B")` with no external id. -/
def vDemo : CommentValidation :=
  ⟨"", "A", "B", "x", 1/2, "pending", "t", "p", "c"⟩

/-- A self-pair validation record for `("A", "A")`. -/
def vSelf : CommentValidation :=
  ⟨"", "A", "A", "x", 1/2, "pending", "t", "p", "c"⟩

/-- The grid document initialised over the universe `["A", "B"]`. -/
def gridDemoInit : GridData := initLocalStorage ["A", "B"] "t0"

/-- The grid document initialised over the one-entity universe `["A"]`. -/
def gridSmallInit : GridData := initLocalStorage ["A"] "t0"

/-! ## Helper lemmas -/

theorem mem_setAdd_left {l : List String} {s a : String} (h : a ∈ l) :
    a ∈ setAdd l s := by
  unfold setAdd
  split
  · exact h
  · exact List.mem_append_left _ h

theorem mem_setUnionL_left {a : String} :
    ∀ (xs l : List String), a ∈ l → a ∈ setUnionL l xs := by
  intro xs
  induction xs with
  | nil => intro l h; exact h
  | cons x xs ih =>
    intro l h
    exact ih (setAdd l x) (mem_setAdd_left h)

theorem alookup_aupdate_self {β : Type} (m : List (String × β)) (k : String)
    (f : β → β) : alookup (aupdate m k f) k = (alookup m k).map f := by
  induction m with
  | nil => rfl
  | cons p t ih =>
    by_cases hp : (p.1 == k) = true
    · simp [aupdate, alookup, hp]
    · simp only [aupdate, List.map_cons, hp, if_neg, Bool.false_eq_true,
        not_false_iff, alookup]
      exact ih

theorem alookup_map_overwrite {β : Type} (k : String) (v : β) :
    ∀ t : List (String × β),
      alookup (t.map (fun q => if q.1 == k then (k, v) else q)) k =
        if akeyMem t k then some v else none := by
  intro t
  induction t with
  | nil => rfl
  | cons p u ih =>
    by_cases hp : (p.1 == k) = true
    · simp [alookup, akeyMem, hp]
    · simp only [List.map_cons, hp, if_neg, Bool.false_eq_true, not_false_iff,
        alookup, akeyMem, Bool.false_or]
      exact ih

theorem alookup_aupsert_self {β : Type} (m : List (String × β)) (k : String)
    (v : β) : alookup (aupsert m k v) k = some v := by
  unfold aupsert
  by_cases hmem : akeyMem m k = true
  · rw [if_pos hmem, alookup_map_overwrite, if_pos hmem]
  · rw [if_neg hmem]
    induction m with
    | nil => simp [alookup]
    | cons p t ih =>
      have hp : ¬ (p.1 == k) = true := by
        intro hcon
        exact hmem (by simp [akeyMem, hcon])
      rw [List.cons_append]
      show (if (p.1 == k) = true then some p.2
        else alookup (t ++ [(k, v)]) k) = some v
      rw [if_neg hp]
      exact ih (fun hcon => hmem (by simp [akeyMem, hcon]))

theorem cellAt_isSome_iff_pairPresent (g : GridData) (s m : String) :
    (cellAt g s m).isSome = pairPresent g s m := by
  unfold cellAt pairPresent
  cases alookup g.validation_grid s <;> rfl

theorem cellAt_addValidation (hashFn : String → String) (now : String)
    (v : CommentValidation) (g : GridData) (c : GridCell)
    (h : cellAt g v.source_apartment v.mentioned_apartment = some c) :
    cellAt (addValidationLocal hashFn now v g).2 v.source_apartment
      v.mentioned_apartment = some (updateCell v now c) := by
  have hpp : pairPresent g v.source_apartment v.mentioned_apartment = true := by
    rw [← cellAt_isSome_iff_pairPresent, h]; rfl
  unfold addValidationLocal
  simp only [hpp, if_pos]
  unfold cellAt at h ⊢
  simp only
  rw [alookup_aupdate_self]
  cases hrow : alookup g.validation_grid v.source_apartment with
  | none => rw [hrow] at h; simp at h
  | some row =>
    have h2 : alookup row v.mentioned_apartment = some c := by
      rw [hrow] at h
      simpa using h
    show alookup (aupdate row v.mentioned_apartment (updateCell v now))
      v.mentioned_apartment = some (updateCell v now c)
    rw [alookup_aupdate_self, h2]
    rfl

theorem countP_map_overwrite {β : Type} (k : String) (v : β)
    (m : List (String × β)) :
    (m.map (fun q => if q.1 == k then (k, v) else q)).countP
        (fun q => q.1 == k) =
      m.countP (fun q => q.1 == k) := by
  induction m with
  | nil => rfl
  | cons p t ih =>
    rw [List.map_cons, List.countP_cons, List.countP_cons, ih]
    by_cases hp : (p.1 == k) = true
    · simp [hp]
    · simp [hp]

theorem akeyMem_iff_countP_pos {β : Type} (m : List (String × β))
    (k : String) :
    akeyMem m k = true ↔ 0 < m.countP (fun q => q.1 == k) := by
  induction m with
  | nil => simp [akeyMem]
  | cons p t ih =>
    by_cases hp : (p.1 == k) = true
    · simp [akeyMem, List.countP_cons, hp]
    · simp [akeyMem, List.countP_cons, hp, ih]

/-- After an upsert, a store holding at most one record under the key
holds exactly one. -/
theorem countP_aupsert_eq_one {β : Type} (m : List (String × β)) (k : String)
    (v : β) (h : m.countP (fun q => q.1 == k) ≤ 1) :
    (aupsert m k v).countP (fun q => q.1 == k) = 1 := by
  unfold aupsert
  by_cases hmem : akeyMem m k = true
  · rw [if_pos hmem, countP_map_overwrite]
    exact Nat.le_antisymm h ((akeyMem_iff_countP_pos m k).1 hmem)
  · rw [if_neg hmem, List.countP_append]
    have h0 : m.countP (fun q => q.1 == k) = 0 := by
      by_contra hne
      exact hmem ((akeyMem_iff_countP_pos m k).2 (Nat.pos_of_ne_zero hne))
    rw [h0]
    simp [List.countP_cons]

theorem mem_insByKey {α β : Type} [LinearOrder β] (key : α → β) (x a : α) :
    ∀ l : List α, a ∈ insByKey key x l ↔ a = x ∨ a ∈ l := by
  intro l
  induction l with
  | nil => simp [insByKey]
  | cons y ys ih =>
    unfold insByKey
    split
    · simp
    · rw [List.mem_cons, ih, List.mem_cons]
      tauto

theorem mem_sortByKeyDesc {α β : Type} [LinearOrder β] (key : α → β) (a : α) :
    ∀ l : List α, a ∈ sortByKeyDesc key l ↔ a ∈ l := by
  intro l
  induction l with
  | nil => simp [sortByKeyDesc]
  | cons y ys ih =>
    unfold sortByKeyDesc at ih ⊢
    rw [List.foldr_cons, mem_insByKey, ih, List.mem_cons]

theorem pairwise_insByKey {α β : Type} [LinearOrder β] (key : α → β) (x : α) :
    ∀ l : List α, List.Pairwise (fun u v => key v ≤ key u) l →
      List.Pairwise (fun u v => key v ≤ key u) (insByKey key x l) := by
  intro l
  induction l with
  | nil => intro _; simp [insByKey]
  | cons y ys ih =>
    intro h
    rw [List.pairwise_cons] at h
    unfold insByKey
    split
    · rename_i hlt
      rw [List.pairwise_cons]
      constructor
      · intro z hz
        rcases List.mem_cons.1 hz with hz | hz
        · subst hz; exact le_of_lt hlt
        · exact le_trans (h.1 z hz) (le_of_lt hlt)
      · exact List.pairwise_cons.2 h
    · rename_i hnlt
      rw [List.pairwise_cons]
      constructor
      · intro z hz
        rcases (mem_insByKey key x z ys).1 hz with hz | hz
        · subst hz; exact le_of_not_lt hnlt
        · exact h.1 z hz
      · exact ih h.2

theorem pairwise_sortByKeyDesc {α β : Type} [LinearOrder β] (key : α → β) :
    ∀ l : List α,
      List.Pairwise (fun u v => key v ≤ key u) (sortByKeyDesc key l) := by
  intro l
  induction l with
  | nil => simp [sortByKeyDesc]
  | cons y ys ih =>
    unfold sortByKeyDesc at ih ⊢
    rw [List.foldr_cons]
    exact pairwise_insByKey key y _ ih

/-- A sorted-descending list whose unique maximum element is known starts
with that element. -/
theorem head?_of_sorted_max {α β : Type} [LinearOrder β] (key : α → β)
    (l : List α) (x : α)
    (hs : List.Pairwise (fun u v => key v ≤ key u) l) (hx : x ∈ l)
    (hmax : ∀ y ∈ l, key y ≤ key x)
    (huniq : ∀ y ∈ l, key y = key x → y = x) : l.head? = some x := by
  cases l with
  | nil => cases hx
  | cons y t =>
    have hy : y = x := by
      rcases List.mem_cons.1 hx with h | h
      · exact h.symm
      · have h1 : key x ≤ key y := (List.pairwise_cons.1 hs).1 x h
        have h2 : key y ≤ key x := hmax y (List.mem_cons_self y t)
        exact huniq y (List.mem_cons_self y t) (le_antisymm h2 h1)
    rw [hy]
    rfl

theorem mem_dedupAux (a : String × ℚ) :
    ∀ (l acc : List (String × ℚ)),
      a ∈ dedupAux acc l ↔ a ∈ acc ∨ a ∈ l := by
  intro l
  induction l with
  | nil => intro acc; simp [dedupAux]
  | cons x t ih =>
    intro acc
    unfold dedupAux
    by_cases hx : x ∈ acc
    · rw [if_pos hx, ih, List.mem_cons]
      constructor
      · tauto
      · rintro (h | h | h)
        · exact Or.inl h
        · subst h; exact Or.inl hx
        · exact Or.inr h
    · rw [if_neg hx, ih, List.mem_append, List.mem_singleton, List.mem_cons]
      tauto

theorem mem_dedupPairs (a : String × ℚ) (l : List (String × ℚ)) :
    a ∈ dedupPairs l ↔ a ∈ l := by
  unfold dedupPairs
  rw [mem_dedupAux]
  simp

theorem head?_take_ten {α : Type} (l : List α) :
    (l.take 10).head? = l.head? := by
  cases l <;> rfl

/-! ## Claim theorems

The rational-arithmetic kernels (`Rat.mul`, `Rat.inv`, `Rat.add`) are
irreducible by default; they are unsealed so that concrete rational
computations can be settled by `decide`. -/

unseal Rat.mul Rat.inv Rat.add

/-- **C2** (counterexample).  The claim asserts that for every name `n`,
`generate_all_aliases(n)` maps `n.lower()` to confidence 1.0.  On the
name `"a"` the basic-variants pass regenerates `"a"` itself and the
confidence loop overwrites its stored confidence with that pass's weight
0.9, so the claim is false at `n = "a"`. -/
theorem claim2_counterexample :
    pyLower "a" ∈ demoAliasA.aliases ∧
    alookup demoAliasA.confidence_scores (pyLower "a") = some (9/10) ∧
    ¬ alookup demoAliasA.confidence_scores (pyLower "a") = some 1 := by
  refine ⟨by decide, by decide, by decide⟩

/-- **C2** (amended).  `n.lower()` is always a member of the generated
alias set, but its stored confidence is the weight written by the last
generator pass that produced the same string, so it can be lower than
1.0: for `"a"` the stored confidence is 0.9, written by the
basic-variants pass. -/
theorem claim2_amended :
    (∀ (sdx : String → Option String) (config : List (String × List String))
        (name : String),
      pyLower name ∈ (generateAllAliases sdx config name).aliases) ∧
    alookup demoAliasA.confidence_scores (pyLower "a") = some (9/10) := by
  constructor
  · intro sdx config name
    unfold generateAllAliases
    apply mem_setUnionL_left
    apply mem_setUnionL_left
    apply mem_setUnionL_left
    apply mem_setUnionL_left
    apply mem_setUnionL_left
    apply mem_setUnionL_left
    exact List.mem_singleton.2 rfl
  · decide

/-- **C4** (counterexample).  The claim asserts each distinct term string
appears at most once in `generate_search_terms`' output.  Python
deduplicates `(term, confidence)` pairs, not terms: for the entity
`"a"`, whose canonical alias carries stored confidence 0.9, the output
contains both `("a", 1.0)` (the explicit canonical entry) and
`("a", 0.9)` (the alias entry), i.e. the term `"a"` appears twice. -/
theorem claim4_counterexample :
    (generateSearchTerms demoMap "a").countP (fun p => p.1 == "a") = 2 ∧
    ¬ (generateSearchTerms demoMap "a").countP (fun p => p.1 == "a") ≤ 1 := by
  refine ⟨by decide, by decide⟩

/-- **C4** (amended).  `generate_search_terms` returns at most 10
entries, sorted descending by confidence, with the canonical lowercased
name first at confidence 1.0 — provided every alias confidence is ≤ 1
and only the canonical lowercased name itself reaches 1 (which holds for
generator-produced alias sets).  Deduplication is by `(term, confidence)`
pair, so the same term may occupy two entries when it carries two
different confidence values (see the counterexample). -/
theorem claim4_amended (aliasMap : List (String × ApartmentAlias))
    (name : String)
    (hconf : ∀ A ∈ alookup aliasMap name, ∀ a ∈ A.aliases,
      confOf A a ≤ 1 ∧ (confOf A a = 1 → a = pyLower name)) :
    (generateSearchTerms aliasMap name).length ≤ 10 ∧
    List.Pairwise (fun x y : String × ℚ => y.2 ≤ x.2)
      (generateSearchTerms aliasMap name) ∧
    (generateSearchTerms aliasMap name).head? = some (pyLower name, 1) := by
  unfold generateSearchTerms
  cases halo : alookup aliasMap name with
  | none =>
    refine ⟨by simp, by simp, rfl⟩
  | some A =>
    have hA := hconf A halo
    set base : List (String × ℚ) := [(pyLower name, 1)] with hbase
    set hi := (A.aliases.filter (fun a => 8/10 ≤ confOf A a)).map
      (fun a => (a, confOf A a)) with hhi
    set mid := (A.aliases.filter
      (fun a => 6/10 ≤ confOf A a ∧ confOf A a < 8/10)).map
      (fun a => (a, confOf A a)) with hmid
    set L := dedupPairs (base ++ hi ++ mid) with hL
    set S := sortByKeyDesc (fun p : String × ℚ => p.2) L with hS
    have hshape : ∀ y ∈ L, y = (pyLower name, 1) ∨
        ∃ a ∈ A.aliases, y = (a, confOf A a) := by
      intro y hy
      have := (mem_dedupPairs y _).1 hy
      rcases List.mem_append.1 this with h | h
      · rcases List.mem_append.1 h with h | h
        · left; simpa [hbase] using h
        · right
          obtain ⟨a, ha, rfl⟩ := List.mem_map.1 h
          exact ⟨a, (List.mem_filter.1 ha).1, rfl⟩
      · right
        obtain ⟨a, ha, rfl⟩ := List.mem_map.1 h
        exact ⟨a, (List.mem_filter.1 ha).1, rfl⟩
    have hmem : (pyLower name, (1 : ℚ)) ∈ L := by
      rw [hL, mem_dedupPairs]
      exact List.mem_append_left _ (List.mem_append_left _ (by simp [hbase]))
    have hmax : ∀ y ∈ L, y.2 ≤ 1 := by
      intro y hy
      rcases hshape y hy with h | ⟨a, ha, rfl⟩
      · subst h; exact le_refl _
      · exact (hA a ha).1
    have huniq : ∀ y ∈ L, y.2 = 1 → y = (pyLower name, 1) := by
      intro y hy h1
      rcases hshape y hy with h | ⟨a, ha, rfl⟩
      · exact h
      · have h2 : confOf A a = 1 := h1
        rw [h2, (hA a ha).2 h2]
    have hsorted := pairwise_sortByKeyDesc (fun p : String × ℚ => p.2) L
    have hheadS : S.head? = some (pyLower name, 1) := by
      apply head?_of_sorted_max (fun p : String × ℚ => p.2) S _ hsorted
      · rw [hS, mem_sortByKeyDesc]; exact hmem
      · intro y hy
        exact hmax y ((mem_sortByKeyDesc _ y L).1 hy)
      · intro y hy
        exact huniq y ((mem_sortByKeyDesc _ y L).1 hy)
    refine ⟨?_, ?_, ?_⟩
    · rw [List.length_take]
      exact min_le_left _ _
    · exact List.Pairwise.sublist (List.take_sublist 10 S) hsorted
    · rw [head?_take_ten, hheadS]

/-- **C4** (witness for the amended theorem): the alias map built for the
entity `"a"` satisfies the confidence hypotheses, and the resulting
search-term list is capped, sorted, and headed by `("a", 1)`. -/
theorem claim4_witness :
    (generateSearchTerms demoMap "a").length ≤ 10 ∧
    List.Pairwise (fun x y : String × ℚ => y.2 ≤ x.2)
      (generateSearchTerms demoMap "a") ∧
    (generateSearchTerms demoMap "a").head? = some (pyLower "a", 1) := by
  apply claim4_amended demoMap "a"
  intro A hA
  have : A = demoAliasA := by
    have h : alookup demoMap "a" = some demoAliasA := by decide
    rw [h] at hA
    exact (Option.mem_some_iff.1 hA).symm
  subst this
  decide

/-- **C8** (confirmed).  `_has_housing_context` returns true exactly when
at least 2 of the 30 housing-context keywords occur as substrings of the
lowercased text; in particular it rejects `"Random comment about pizza"`
and accepts `"The rent and parking here are great"`. -/
theorem claim8_context_gate :
    (∀ t : String, hasHousingContext t = true ↔ 2 ≤ contextKeywordCount t) ∧
    hasHousingContext "Random comment about pizza" = false ∧
    hasHousingContext "The rent and parking here are great" = true := by
  refine ⟨fun t => ?_, by decide, by decide⟩
  simp [hasHousingContext]

/-- **C10** (counterexample).  The claim asserts `"park"` is a member of
the keyword set and hence that any text containing `"parking"` passes the
gate.  `"park"` is not in the set (only `"parking"` is), and the text
`"parking"` scores a single keyword hit, failing the gate. -/
theorem claim10_counterexample :
    housingContextKeywords.contains "park" = false ∧
    hasHousingContext "parking" = false := by
  refine ⟨by decide, by decide⟩

/-- **C10** (amended).  The gate does count keywords by plain substring
containment (not whole words): `"apartments roommates"` passes via the
keywords `"apartment"` and `"roommate"` embedded in longer words.  But
`"park"` is not in the keyword set — only `"parking"` — so a text whose
only keyword material is the word `"parking"` accumulates exactly one
hit and fails the gate. -/
theorem claim10_amended :
    housingContextKeywords.contains "parking" = true ∧
    housingContextKeywords.contains "park" = false ∧
    contextKeywordCount "parking" = 1 ∧
    hasHousingContext "parking" = false ∧
    hasHousingContext "apartments roommates" = true := by
  refine ⟨by decide, by decide, by decide, by decide, by decide⟩

theorem getSummaryLocal_of_cellAt_none (g : GridData) (s m : String)
    (h : cellAt g s m = none) : getSummaryLocal g s m = ⟨0, 0, 0⟩ := by
  unfold getSummaryLocal
  rw [h]

/-- **C1** (counterexample).  The claim asserts that recording the same
`CommentValidation` (empty external id, hence the derived id, same
fields) twice increments the cell's `commentCount` by exactly 1.  The
cell statistics in `_add_validation_local` are incremented on every
call, regardless of whether the comment id already exists, so two
identical calls leave `commentCount = 2`, not 1. -/
theorem claim1_counterexample :
    ((cellAt (runAdds hashDemo [("t1", vDemo), ("t2", vDemo)] gridDemoInit)
        "A" "B").map GridCell.comment_count = some 2) ∧
    ¬ ((cellAt (runAdds hashDemo [("t1", vDemo), ("t2", vDemo)] gridDemoInit)
        "A" "B").map GridCell.comment_count = some 1) := by
  refine ⟨by decide, by decide⟩

/-- **C1** (amended).  `_add_validation_local` increments the cell's
`commentCount` once per call, independent of the record's id: two calls
with the same `(source, mentioned)` pair — whether the records are
identical or carry different ids — increase `commentCount` by exactly 2.
The record store itself is upserted by id, so re-recording the identical
record leaves exactly one stored record under its (derived) id. -/
theorem claim1_amended (hashFn : String → String) (n1 n2 : String)
    (v1 v2 : CommentValidation) (g : GridData) (c : GridCell)
    (hsrc : v2.source_apartment = v1.source_apartment)
    (hmen : v2.mentioned_apartment = v1.mentioned_apartment)
    (hcell : cellAt g v1.source_apartment v1.mentioned_apartment = some c) :
    (∃ c', cellAt (runAdds hashFn [(n1, v1), (n2, v2)] g)
        v1.source_apartment v1.mentioned_apartment = some c' ∧
        c'.comment_count = c.comment_count + 2) ∧
    (v1 = v2 →
      g.comments.countP (fun q => q.1 == effectiveCommentId hashFn v1) ≤ 1 →
      (runAdds hashFn [(n1, v1), (n2, v2)] g).comments.countP
        (fun q => q.1 == effectiveCommentId hashFn v1) = 1) := by
  have hg1 := cellAt_addValidation hashFn n1 v1 g c hcell
  have hg1' : cellAt (addValidationLocal hashFn n1 v1 g).2
      v2.source_apartment v2.mentioned_apartment =
      some (updateCell v1 n1 c) := by
    rw [hsrc, hmen]; exact hg1
  have hg2 := cellAt_addValidation hashFn n2 v2
    (addValidationLocal hashFn n1 v1 g).2 (updateCell v1 n1 c) hg1'
  constructor
  · refine ⟨updateCell v2 n2 (updateCell v1 n1 c), ?_, ?_⟩
    · show cellAt (addValidationLocal hashFn n2 v2
          (addValidationLocal hashFn n1 v1 g).2).2
        v1.source_apartment v1.mentioned_apartment = _
      rw [← hsrc, ← hmen]
      exact hg2
    · rfl
  · intro hv hle
    subst hv
    show ((aupsert (aupsert g.comments (effectiveCommentId hashFn v1)
        (recordOf v1)) (effectiveCommentId hashFn v1)
        (recordOf v1)).countP (fun q => q.1 == effectiveCommentId hashFn v1)) = 1
    have h1 := countP_aupsert_eq_one g.comments
      (effectiveCommentId hashFn v1) (recordOf v1) hle
    exact countP_aupsert_eq_one _ _ _ (le_of_eq h1)

/-- **C1** (witness).  Running the amended theorem on the concrete
two-entity grid: two identical records for `("A", "B")` leave the cell
count at 2 and a single stored record. -/
theorem claim1_witness :
    (∃ c', cellAt (runAdds hashDemo [("t1", vDemo), ("t2", vDemo)]
        gridDemoInit) "A" "B" = some c' ∧
        c'.comment_count = zeroCell.comment_count + 2) ∧
    (runAdds hashDemo [("t1", vDemo), ("t2", vDemo)]
        gridDemoInit).comments.countP
      (fun q => q.1 == effectiveCommentId hashDemo vDemo) = 1 := by
  have h := claim1_amended hashDemo "t1" "t2" vDemo vDemo gridDemoInit
    zeroCell rfl rfl (by decide)
  exact ⟨h.1, h.2 rfl (by decide)⟩

/-- **C3** (counterexample).  The claim asserts that recording a pair not
present in the grid lazily grows the grid, leaving a cell with an
incremented count.  With the single-entity universe `["A"]`, recording
`("A", "B")` reports success but `_add_validation_local` silently skips
the cell update: no cell for `("A", "B")` exists afterwards. -/
theorem claim3_counterexample :
    (addValidationLocal hashDemo "t1" vDemo gridSmallInit).1 = true ∧
    cellAt (addValidationLocal hashDemo "t1" vDemo gridSmallInit).2
      "A" "B" = none := by
  refine ⟨rfl, by decide⟩

/-- **C3** (amended).  A record whose `(source, mentioned)` pair is not in
the grid is accepted — the call reports success and the record is stored
under its id — but the grid does NOT grow: the `validation_grid` document
is left unchanged, no cell for the pair exists afterwards, and
`_get_summary_local` returns the zero-valued default for the pair. -/
theorem claim3_amended (hashFn : String → String) (now : String)
    (v : CommentValidation) (g : GridData)
    (habs : pairPresent g v.source_apartment v.mentioned_apartment = false) :
    (addValidationLocal hashFn now v g).1 = true ∧
    (addValidationLocal hashFn now v g).2.validation_grid =
      g.validation_grid ∧
    cellAt (addValidationLocal hashFn now v g).2 v.source_apartment
      v.mentioned_apartment = none ∧
    alookup (addValidationLocal hashFn now v g).2.comments
      (effectiveCommentId hashFn v) = some (recordOf v) ∧
    getSummaryLocal (addValidationLocal hashFn now v g).2 v.source_apartment
      v.mentioned_apartment = ⟨0, 0, 0⟩ := by
  have hgrid : (addValidationLocal hashFn now v g).2.validation_grid =
      g.validation_grid := by
    unfold addValidationLocal
    simp [habs]
  have hcell : cellAt (addValidationLocal hashFn now v g).2
      v.source_apartment v.mentioned_apartment = none := by
    have heq : cellAt (addValidationLocal hashFn now v g).2
        v.source_apartment v.mentioned_apartment =
        cellAt g v.source_apartment v.mentioned_apartment := by
      unfold cellAt
      rw [hgrid]
    rw [heq]
    have h2 := cellAt_isSome_iff_pairPresent g v.source_apartment
      v.mentioned_apartment
    rw [habs] at h2
    exact Option.not_isSome_iff_eq_none.1 (by simp [h2])
  refine ⟨rfl, hgrid, hcell, ?_, getSummaryLocal_of_cellAt_none _ _ _ hcell⟩
  show alookup (aupsert g.comments (effectiveCommentId hashFn v)
    (recordOf v)) (effectiveCommentId hashFn v) = some (recordOf v)
  exact alookup_aupsert_self _ _ _

/-- **C3** (witness).  The amended theorem applied to the one-entity grid
`["A"]` and a record for the absent pair `("A", "B")`. -/
theorem claim3_witness :
    (addValidationLocal hashDemo "t1" vDemo gridSmallInit).1 = true ∧
    (addValidationLocal hashDemo "t1" vDemo gridSmallInit).2.validation_grid =
      gridSmallInit.validation_grid ∧
    cellAt (addValidationLocal hashDemo "t1" vDemo gridSmallInit).2
      "A" "B" = none ∧
    alookup (addValidationLocal hashDemo "t1" vDemo gridSmallInit).2.comments
      (effectiveCommentId hashDemo vDemo) = some (recordOf vDemo) ∧
    getSummaryLocal (addValidationLocal hashDemo "t1" vDemo gridSmallInit).2
      "A" "B" = ⟨0, 0, 0⟩ :=
  claim3_amended hashDemo "t1" vDemo gridSmallInit (by decide)

/-! ### C7: the average-confidence invariant -/

/-- The per-cell invariant of C7: `averageConfidence` is 0 on an empty
cell and `confidenceSum / commentCount` (exactly, in `ℚ`) otherwise. -/
def cellInvariant (c : GridCell) : Prop :=
  (c.comment_count = 0 → c.average_confidence = 0) ∧
  (c.comment_count ≠ 0 →
    c.average_confidence = c.confidence_sum / (c.comment_count : ℚ))

/-- The whole-grid invariant: every stored cell satisfies
`cellInvariant`. -/
def gridInvariant (g : GridData) : Prop :=
  ∀ row ∈ g.validation_grid, ∀ pr ∈ row.2, cellInvariant pr.2

theorem cellInvariant_zeroCell : cellInvariant zeroCell :=
  ⟨fun _ => rfl, fun h => absurd rfl h⟩

theorem cellInvariant_updateCell (v : CommentValidation) (now : String)
    (c : GridCell) : cellInvariant (updateCell v now c) := by
  constructor
  · intro h
    exact absurd h (Nat.succ_ne_zero _)
  · intro _
    rfl

theorem gridInvariant_init (apartments : List String) (now : String) :
    gridInvariant (initLocalStorage apartments now) := by
  intro row hrow pr hpr
  unfold initLocalStorage at hrow
  simp only at hrow
  obtain ⟨s, _, rfl⟩ := List.mem_map.1 hrow
  obtain ⟨t, _, rfl⟩ := List.mem_map.1 hpr
  exact cellInvariant_zeroCell

theorem mem_aupdate {β : Type} (m : List (String × β)) (k : String)
    (f : β → β) (p : String × β) (hp : p ∈ aupdate m k f) :
    p ∈ m ∨ ∃ q ∈ m, p = (q.1, f q.2) := by
  obtain ⟨q, hq, hpq⟩ := List.mem_map.1 hp
  by_cases hk : (q.1 == k) = true
  · rw [if_pos hk] at hpq
    exact Or.inr ⟨q, hq, hpq.symm⟩
  · rw [if_neg hk] at hpq
    exact Or.inl (hpq ▸ hq)

theorem gridInvariant_step (hashFn : String → String) (now : String)
    (v : CommentValidation) (g : GridData) (hg : gridInvariant g) :
    gridInvariant (addValidationLocal hashFn now v g).2 := by
  intro row hrow pr hpr
  unfold addValidationLocal at hrow
  simp only at hrow
  by_cases hpp : pairPresent g v.source_apartment v.mentioned_apartment = true
  · rw [if_pos hpp] at hrow
    rcases mem_aupdate _ _ _ row hrow with hrow | ⟨q, hq, rfl⟩
    · exact hg row hrow pr hpr
    · rcases mem_aupdate _ _ _ pr hpr with hpr2 | ⟨r, hr, rfl⟩
      · exact hg q hq pr hpr2
      · exact cellInvariant_updateCell v now r.2
  · rw [if_neg hpp] at hrow
    exact hg row hrow pr hpr

theorem gridInvariant_runAdds (hashFn : String → String) :
    ∀ (steps : List (String × CommentValidation)) (g : GridData),
      gridInvariant g → gridInvariant (runAdds hashFn steps g) := by
  intro steps
  induction steps with
  | nil => intro g hg; exact hg
  | cons p rest ih =>
    intro g hg
    exact ih _ (gridInvariant_step hashFn p.1 p.2 g hg)

/-- **C7** (confirmed).  In every grid state reachable from
initialization by any sequence of `_add_validation_local` calls, every
stored cell has `averageConfidence = confidenceSum / commentCount`
(exactly, in the rational model, hence within any floating-point
tolerance) whenever `commentCount ≠ 0`, and `averageConfidence` exactly 0
whenever `commentCount = 0`. -/
theorem claim7_average_invariant (hashFn : String → String)
    (apartments : List String) (now0 : String)
    (steps : List (String × CommentValidation))
    (row : String × List (String × GridCell)) (pr : String × GridCell)
    (hrow : row ∈ (runAdds hashFn steps
      (initLocalStorage apartments now0)).validation_grid)
    (hpr : pr ∈ row.2) : cellInvariant pr.2 :=
  gridInvariant_runAdds hashFn steps (initLocalStorage apartments now0)
    (gridInvariant_init apartments now0) row hrow pr hpr

/-- **C7** (witness).  The invariant read off the concrete cell left by
one self-pair validation on the universe `["A"]`. -/
theorem claim7_witness :
    cellInvariant (⟨1, 0, 1/2, 1/2, some "t1"⟩ : GridCell) :=
  claim7_average_invariant hashDemo ["A"] "t0" [("t1", vSelf)]
    ("A", [("A", ⟨1, 0, 1/2, 1/2, some "t1"⟩)])
    ("A", ⟨1, 0, 1/2, 1/2, some "t1"⟩) (by decide) (by decide)

/-! ### C5: the fuzzy matcher -/

theorem mem_findBestMatch (fz : String → String → ℕ) (q : String)
    (uni : List ApartmentAlias) (t : ℕ) (m : String × ℕ × Option String × ℚ) :
    m ∈ findBestMatch fz q uni t ↔
      ∃ A ∈ uni, t ≤ (bestMatchTriple fz (pyLower q) A).1 ∧
        m = (A.original_name, bestMatchTriple fz (pyLower q) A) := by
  unfold findBestMatch
  rw [mem_sortByKeyDesc, List.mem_filterMap]
  constructor
  · rintro ⟨A, hA, hf⟩
    by_cases hth : t ≤ (bestMatchTriple fz (pyLower q) A).1
    · rw [if_pos hth] at hf
      exact ⟨A, hA, hth, (Option.some_inj.1 hf).symm⟩
    · rw [if_neg hth] at hf
      cases hf
  · rintro ⟨A, hA, hth, rfl⟩
    exact ⟨A, hA, by rw [if_pos hth]⟩

/-- **C5** (confirmed).  `find_best_match` never emits an entity whose
best score over its aliases is below the threshold (every returned tuple
carries exactly the entity's best score, which clears the threshold), and
for thresholds `t1 ≤ t2` every tuple returned at `t2` is also returned at
`t1`: raising the threshold can only shrink or hold the result set. -/
theorem claim5_threshold_monotone (fz : String → String → ℕ) (q : String)
    (uni : List ApartmentAlias) (t1 t2 : ℕ) (hle : t1 ≤ t2) :
    (∀ m ∈ findBestMatch fz q uni t2,
      t2 ≤ m.2.1 ∧ ∃ A ∈ uni, m.1 = A.original_name ∧
        m.2.1 = (bestMatchTriple fz (pyLower q) A).1) ∧
    (∀ m ∈ findBestMatch fz q uni t2, m ∈ findBestMatch fz q uni t1) := by
  constructor
  · intro m hm
    obtain ⟨A, hA, hth, rfl⟩ := (mem_findBestMatch fz q uni t2 m).1 hm
    exact ⟨hth, A, hA, rfl, rfl⟩
  · intro m hm
    obtain ⟨A, hA, hth, rfl⟩ := (mem_findBestMatch fz q uni t2 m).1 hm
    exact (mem_findBestMatch fz q uni t1 _).2 ⟨A, hA, le_trans hle hth, rfl⟩

/-- **C5** (witness).  At thresholds 80 ≤ 90, the entity `"a"` (exact
alias match, score 100) returned at 90 is also returned at 80. -/
theorem claim5_witness :
    ("a", 100, some "a", (9 : ℚ)/10) ∈ findBestMatch fzZero "a"
      [demoAliasA] 80 :=
  (claim5_threshold_monotone fzZero "a" [demoAliasA] 80 90 (by decide)).2
    ("a", 100, some "a", (9 : ℚ)/10) (by decide)

/-! ### C6: the mention detector -/

theorem findMentioned_sound (fz : String → String → ℕ) (text : String)
    (name : String) (s : ℚ) :
    ∀ uni : List (String × ApartmentAlias),
      (name, s) ∈ findMentionedApartments fz uni text →
      ∃ A, (name, A) ∈ uni ∧ s = bestMentionScore fz (pyLower text) A ∧
        6/10 ≤ s := by
  intro uni
  induction uni with
  | nil => intro h; cases h
  | cons p rest ih =>
    obtain ⟨n, A⟩ := p
    intro h
    unfold findMentionedApartments at h
    by_cases hc : (6/10 : ℚ) ≤ bestMentionScore fz (pyLower text) A
    · rw [if_pos hc] at h
      rcases List.mem_cons.1 h with he | ht
      · rw [Prod.mk.injEq] at he
        obtain ⟨hn, hs⟩ := he
        subst hn
        exact ⟨A, List.mem_cons_self _ _, hs, hs ▸ hc⟩
      · obtain ⟨A', hA', hs', hle'⟩ := ih ht
        exact ⟨A', List.mem_cons_of_mem _ hA', hs', hle'⟩
    · rw [if_neg hc] at h
      obtain ⟨A', hA', hs', hle'⟩ := ih h
      exact ⟨A', List.mem_cons_of_mem _ hA', hs', hle'⟩

theorem findMentioned_complete (fz : String → String → ℕ) (text : String)
    (name : String) (A : ApartmentAlias) :
    ∀ uni : List (String × ApartmentAlias), (name, A) ∈ uni →
      6/10 ≤ bestMentionScore fz (pyLower text) A →
      (name, bestMentionScore fz (pyLower text) A) ∈
        findMentionedApartments fz uni text := by
  intro uni
  induction uni with
  | nil => intro h; cases h
  | cons p rest ih =>
    obtain ⟨n, A'⟩ := p
    intro hmem hle
    unfold findMentionedApartments
    rcases List.mem_cons.1 hmem with he | ht
    · rw [Prod.mk.injEq] at he
      obtain ⟨hn, hA⟩ := he
      subst hn
      subst hA
      rw [if_pos hle]
      exact List.mem_cons_self _ _
    · have hrec := ih ht hle
      by_cases hc : (6/10 : ℚ) ≤ bestMentionScore fz (pyLower text) A'
      · rw [if_pos hc]
        exact List.mem_cons_of_mem _ hrec
      · rw [if_neg hc]
        exact hrec

/-- **C6** (confirmed).  `_find_mentioned_apartments` contains an entity
exactly when the maximum, over its aliases, of the per-alias score
(`confidence` on a substring hit; `confidence × ratio/100` from the
per-word fuzzy pass for aliases longer than 4 characters; 0 otherwise)
is at least 0.6, and every reported score is that maximum. -/
theorem claim6_mention_threshold (fz : String → String → ℕ)
    (uni : List (String × ApartmentAlias)) (text : String) (name : String) :
    ((∃ s, (name, s) ∈ findMentionedApartments fz uni text) ↔
      ∃ A, (name, A) ∈ uni ∧
        6/10 ≤ bestMentionScore fz (pyLower text) A) ∧
    (∀ s, (name, s) ∈ findMentionedApartments fz uni text →
      ∃ A, (name, A) ∈ uni ∧ s = bestMentionScore fz (pyLower text) A) := by
  constructor
  · constructor
    · rintro ⟨s, hs⟩
      obtain ⟨A, hA, hsA, hle⟩ := findMentioned_sound fz text name s uni hs
      exact ⟨A, hA, hsA ▸ hle⟩
    · rintro ⟨A, hA, hle⟩
      exact ⟨_, findMentioned_complete fz text name A uni hA hle⟩
  · intro s hs
    obtain ⟨A, hA, hsA, _⟩ := findMentioned_sound fz text name s uni hs
    exact ⟨A, hA, hsA⟩

/-- **C6** (witness).  In the one-entity universe for `"a"`, the text
`"I love a good deal"` (which contains the alias `"a"`, confidence 0.9)
yields a mention. -/
theorem claim6_witness :
    ∃ s, ("a", s) ∈ findMentionedApartments fzZero demoMap
      "I love a good deal" :=
  (claim6_mention_threshold fzZero demoMap "I love a good deal" "a").1.mpr
    ⟨demoAliasA, by decide, by decide⟩

/-! ### C9: first-token fuzzy scoring -/

/-- **C9** (confirmed).  When an alias longer than 4 characters is not a
substring of the lowercased text, its fuzzy score is computed from the
FIRST whitespace token (in text order) whose ratio clears 85 — not from
the maximum-ratio token.  Concretely, for the alias `"catalyst"` in
`"catalist catalys"` the first token scores ratio 88 and the later token
ratio 93, and the alias's score is `conf × 88/100`, not
`conf × 93/100`. -/
theorem claim9_first_token_fuzzy :
    (∀ (fz : String → String → ℕ) (text a : String) (conf : ℚ) (w : String),
      strContains (pyLower text) a = false →
      a.data.length > 4 →
      (pyWords (pyLower text)).find? (fun x => 85 ≤ fz a x) = some w →
      aliasScore fz (pyLower text) a conf = conf * ((fz a w : ℚ) / 100)) ∧
    ((pyWords (pyLower "catalist catalys")).find?
        (fun x => 85 ≤ fzDemo "catalyst" x) = some "catalist" ∧
      fzDemo "catalyst" "catalist" = 88 ∧
      fzDemo "catalyst" "catalys" = 93 ∧
      "catalys" ∈ pyWords (pyLower "catalist catalys") ∧
      aliasScore fzDemo (pyLower "catalist catalys") "catalyst" 1 = 88/100 ∧
      ¬ aliasScore fzDemo (pyLower "catalist catalys") "catalyst" 1
          = 93/100) := by
  constructor
  · intro fz text a conf w hsub hlen hfind
    unfold aliasScore
    rw [hsub]
    simp only [Bool.false_eq_true, if_false, hlen, if_pos, hfind]
  · refine ⟨by decide, by decide, by decide, by decide, by decide, by decide⟩

/-- **C9** (witness).  The general first-token theorem applied at the
concrete text, alias, and tabulated ratio function. -/
theorem claim9_witness :
    aliasScore fzDemo (pyLower "catalist catalys") "catalyst" 1 =
      1 * ((fzDemo "catalyst" "catalist" : ℚ) / 100) :=
  claim9_first_token_fuzzy.1 fzDemo "catalist catalys" "catalyst" 1
    "catalist" (by decide) (by decide) (by decide)

end StingerSpaces
